import Mathlib

/-!
Shallow embedding of the transcription driver (`src/cmd/transcribe.py`) of the
chismelabs repository, together with theorems settling the specification claims
about it.

The filesystem is modelled as a partial map from path strings to file contents;
a chat message is a role together with a list of typed content parts; fallible
Python code (code that can raise) is modelled in the `Except String` monad.
Python string formatting subtleties are preserved exactly: in particular the
work-image user turn appends the literal text of the annotation placeholder
(the source line lacks the `f` string modifier), and the context-window slice
uses Python slice semantics for a possibly negative start index.
-/

/-- The filesystem: a partial map from paths to file contents.
`os.path.exists p` is `(files p).isSome`; reading a file is looking it up. -/
structure FS where
  files : String → Option String

/-- One typed part of a chat message body: a text part (whose payload may be
Python `None`, hence `Option`) or an inlined base64 image data URI. -/
inductive ContentPart where
  | text (s : Option String)
  | image_url (url : String)
deriving DecidableEq

/-- A role-tagged chat turn, as the dicts built by `transcribe.py`. -/
structure Message where
  role : String
  content : List ContentPart
deriving DecidableEq

/-- Image record: `PhotoTranscription` from the source, an immutable value
holding the image path. -/
structure PhotoTranscription where
  image_path : String
deriving DecidableEq

/-! ### Path utilities (models of `str.endswith`, `str.startswith`,
`os.path.join`, `os.path.splitext`) -/

/-- Model of Python `s.endswith(t)`. -/
def endswith (s t : String) : Bool := decide (t.data <:+ s.data)

/-- Model of Python `s.startswith(t)`. -/
def startswith (s t : String) : Bool := decide (t.data <+: s.data)

/-- Model of `posixpath.join(a, b)` for two components: if `b` is absolute it
wins; otherwise it is appended to `a` with a separator unless `a` is empty or
already ends with one. -/
def os_path_join (a b : String) : String :=
  if startswith b "/" then b
  else if a = "" || endswith a "/" then a ++ b
  else a ++ "/" ++ b

/-- Index of the last occurrence of a character in a list, if any. -/
def last_index_of (c : Char) : List Char → Option Nat
  | [] => none
  | x :: xs =>
    match last_index_of c xs with
    | some i => some (i + 1)
    | none => if x = c then some 0 else none

/-- Model of CPython `posixpath.splitext`: split at the last dot provided it
lies inside the final path component and that component has a non-dot
character before it (leading dots of a basename never start an extension). -/
def split_ext_core (p : List Char) : List Char × List Char :=
  let s : Nat :=
    match last_index_of '/' p with
    | none => 0
    | some i => i + 1
  match last_index_of '.' p with
  | none => (p, [])
  | some d =>
    if s ≤ d then
      if ((p.drop s).take (d - s)).any (fun ch => ch != '.') then
        (p.take d, p.drop d)
      else (p, [])
    else (p, [])

/-- `os.path.splitext` on strings. -/
def split_ext (p : String) : String × String :=
  ((split_ext_core p.data).1.asString, (split_ext_core p.data).2.asString)

/-! ### Base64 (model of `base64.b64encode` over the UTF-8 bytes of the file
contents, as used by `_encode_image`) -/

/-- The base64 alphabet. -/
def b64_table : List Char :=
  "ABCDEFGHIJKLMNOPQRSTUVWXYZabcdefghijklmnopqrstuvwxyz0123456789+/".data

/-- The base64 digit for a 6-bit value. -/
def b64_char (n : Nat) : Char := b64_table.getD n 'A'

/-- Encode a final group of one, two or three bytes into four base64
characters, padding with `=`. -/
def b64_chunk : List Nat → List Char
  | [a] => [b64_char (a / 4), b64_char (a % 4 * 16), '=', '=']
  | [a, b] => [b64_char (a / 4), b64_char (a % 4 * 16 + b / 16),
               b64_char (b % 16 * 4), '=']
  | a :: b :: c :: _ =>
      [b64_char (a / 4), b64_char (a % 4 * 16 + b / 16),
       b64_char (b % 16 * 4 + c / 64), b64_char (c % 64)]
  | [] => []

/-- Base64-encode a byte list, three bytes at a time. -/
def b64_encode : List Nat → List Char
  | [] => []
  | [a] => b64_chunk [a]
  | [a, b] => b64_chunk [a, b]
  | a :: b :: c :: rest => b64_chunk [a, b, c] ++ b64_encode rest

/-- The UTF-8 byte values of one character. -/
def utf8_bytes_of_char (c : Char) : List Nat :=
  let n := c.toNat
  if n < 0x80 then [n]
  else if n < 0x800 then [0xC0 + n / 0x40, 0x80 + n % 0x40]
  else if n < 0x10000 then [0xE0 + n / 0x1000, 0x80 + n / 0x40 % 0x40, 0x80 + n % 0x40]
  else [0xF0 + n / 0x40000, 0x80 + n / 0x1000 % 0x40, 0x80 + n / 0x40 % 0x40, 0x80 + n % 0x40]

/-- The UTF-8 byte values of a character list. -/
def utf8_bytes_list : List Char → List Nat
  | [] => []
  | c :: cs => utf8_bytes_of_char c ++ utf8_bytes_list cs

/-- `_encode_image`: base64 of the raw bytes of the file (file contents are
modelled as strings, their bytes as the UTF-8 encoding). -/
def encode_image (bytes : String) : String := (b64_encode (utf8_bytes_list bytes.data)).asString

/-! ### PhotoTranscription operations -/

/-- `PhotoTranscription.from_jpg_path`: construction fails unless the path
ends in `.jpeg` or `.jpg`. -/
def from_jpg_path (image_path : String) : Except String PhotoTranscription :=
  if !(endswith image_path ".jpeg") && !(endswith image_path ".jpg") then
    .error "Photo must be in JPEG format"
  else
    .ok ⟨image_path⟩

/-- `_transcription_path`: the derived sibling path `<base>.txt`. -/
def trans_path (self : PhotoTranscription) : String :=
  (split_ext self.image_path).1 ++ ".txt"

/-- `_annotation_path`: the derived sibling path for the human annotation. -/
def annot_path (self : PhotoTranscription) : String :=
  (split_ext self.image_path).1 ++ "_annotation.txt"

/-- `has_transcription`: does the derived transcription file exist? -/
def has_transcription (fs : FS) (self : PhotoTranscription) : Bool :=
  (fs.files (trans_path self)).isSome

/-- `has_annotation` of the source: does the annotation file exist? -/
def has_annot (fs : FS) (self : PhotoTranscription) : Bool :=
  (fs.files (annot_path self)).isSome

/-- `transcription` property: the transcription file contents, or `None`. -/
def transcription (fs : FS) (self : PhotoTranscription) : Option String :=
  fs.files (trans_path self)

/-- `annotation` property of the source: the annotation file contents, or
`None`. -/
def annot (fs : FS) (self : PhotoTranscription) : Option String :=
  fs.files (annot_path self)

/-- `save_transcription`: open the transcription path with mode `w` and write
the text, i.e. replace that one file's contents and nothing else. -/
def save_transcription (fs : FS) (self : PhotoTranscription) (t : String) : FS :=
  ⟨fun q => if q = trans_path self then some t else fs.files q⟩

/-! ### Message assembly -/

/-- `_image_to_content`: the data-URI image part. -/
def image_to_content (base64_image : String) : ContentPart :=
  .image_url ("data:image/jpeg;base64," ++ base64_image)

/-- The text of a work-image user turn. When an annotation file exists the
source appends a NON-f-string literal, so the placeholder text itself (not the
annotation contents) is appended; this is preserved verbatim. -/
def user_text (fs : FS) (self : PhotoTranscription) : String :=
  "Transcribe the following image" ++
    (if has_annot fs self then
      " by using the following human transcription as base:\n\x7bself.annotation\x7d"
    else "")

/-- `user_message` property: reads the image file (which can fail) and builds
a user turn of guiding text plus the inlined image. -/
def user_message (fs : FS) (self : PhotoTranscription) : Except String Message :=
  match fs.files self.image_path with
  | none => .error ("No such file or directory: " ++ self.image_path)
  | some bytes =>
    .ok { role := "user"
          content := [.text (some (user_text fs self)),
                      image_to_content (encode_image bytes)] }

/-- The value of `user_message` when the image file is present (total form,
used to state results; `user_message_of_present` relates the two). -/
def user_message_of (fs : FS) (self : PhotoTranscription) : Message :=
  { role := "user"
    content := [.text (some (user_text fs self)),
                image_to_content (encode_image ((fs.files self.image_path).getD ""))] }

/-- `assistant_message` property: a text-only assistant turn holding the
transcription (or `None` when the file is absent, as in the source). -/
def assistant_message (fs : FS) (self : PhotoTranscription) : Message :=
  { role := "assistant", content := [.text (transcription fs self)] }

/-- `system_message` property: requires a non-empty annotation (Python
truthiness: both a missing file and an empty one raise), then pairs the image
with the annotation text. Note the source gives this turn the `user` role. -/
def system_message (fs : FS) (self : PhotoTranscription) : Except String Message :=
  match annot fs self with
  | none => .error "Annotation must be provided for system message"
  | some a =>
    if a = "" then .error "Annotation must be provided for system message"
    else
      match fs.files self.image_path with
      | none => .error ("No such file or directory: " ++ self.image_path)
      | some bytes =>
        .ok { role := "user"
              content := [image_to_content (encode_image bytes),
                          .text (some ("Example of the best manual transcription by a human of the image above:\n" ++ a))] }

/-- The fixed system-role instruction turn of `_make_system_messages`. -/
def system_prompt : Message :=
  { role := "system"
    content := [.text (some ("You are an expert Spanish colonial era archivist of documents from 1772 in Puebla, Mexico. The documents are marriage dispensations for the racialized communities of New Spain. The documents were handwritten by notaries and archbishops. You are also an expert in reading cursive and able to spot similar characters.\n\nHere are instructions for transcribing the photos of documents:\n- A user will provide you with photos of the documents. You will transcribe the photos into text.\n- Cross-reference Spanish dictionaries and historical documents to ensure accuracy of words.\n- Transcribe exactly as written, preserve all spellings.\n- Use human transcriptions as examples to guide transcribing.\n- If uncertain, use \x27[...]\x27\n\nThe user will provide the best human-transcribed pages of documents from the same archive that should be used as examples to transcribe newly provided photos:"))] }

/-- The list comprehension `[image.system_message for image in images]`:
builds each reference turn in order, propagating the first raised error. -/
def system_messages_of (fs : FS) : List PhotoTranscription → Except String (List Message)
  | [] => .ok []
  | r :: rs => do
    let m ← system_message fs r
    let ms ← system_messages_of fs rs
    .ok (m :: ms)

/-- `_make_system_messages`: the fixed prompt followed by one turn per
reference image. -/
def make_system_messages (fs : FS) (images : List PhotoTranscription) :
    Except String (List Message) := do
  let ms ← system_messages_of fs images
  .ok (system_prompt :: ms)

/-! ### Discovery (`_load_images`) -/

/-- Python string `<=`: lexicographic comparison of the code-point
sequences. -/
def chars_le : List Char → List Char → Bool
  | [], _ => true
  | _ :: _, [] => false
  | a :: as, b :: bs =>
    if a.toNat < b.toNat then true
    else if b.toNat < a.toNat then false
    else chars_le as bs

/-- Python `<=` on strings. -/
def str_le (a b : String) : Bool := chars_le a.data b.data

/-- Insert into a sorted list (the unique stable sort agreeing with Python
`sorted` on a total order). -/
def insert_sorted (x : String) : List String → List String
  | [] => [x]
  | y :: ys => if str_le x y then x :: y :: ys else y :: insert_sorted x ys

/-- Model of Python `sorted` on strings. -/
def py_sorted : List String → List String
  | [] => []
  | x :: xs => insert_sorted x (py_sorted xs)

/-- The loop body of `_load_images` over an already-sorted listing: skip
entries without a supported extension, construct a record for the rest. -/
def load_images_loop (images_dir : String) : List String → Except String (List PhotoTranscription)
  | [] => .ok []
  | image_path :: rest =>
    if !(endswith image_path ".jpeg") && !(endswith image_path ".jpg") then
      load_images_loop images_dir rest
    else do
      let image ← from_jpg_path (os_path_join images_dir image_path)
      let images ← load_images_loop images_dir rest
      .ok (image :: images)

/-- `_load_images`: iterate `sorted(os.listdir(images_dir))` (the raw listing
is passed in, since the directory contents are an input). -/
def load_images (images_dir : String) (listing : List String) :
    Except String (List PhotoTranscription) :=
  load_images_loop images_dir (py_sorted listing)

/-! ### Conversation assembly (`_transcribe_images`) and the outer loop -/

/-- Python slice `l[i:]` for an arbitrary (possibly negative) integer start:
a negative start counts from the end and is clamped at zero. -/
def py_slice_from (l : List α) (i : Int) : List α :=
  let n : Int := if i < 0 then i + (l.length : Int) else i
  if n ≤ 0 then l else l.drop n.toNat

/-- `MAX_PHOTOS_PER_CONVERSATION`. -/
def MAX_PHOTOS_PER_CONVERSATION : Nat := 4

/-- The `for image in user_images` loop of `_transcribe_images`: append each
user turn; after each transcribed image also append its assistant turn and
continue; stop at the first untranscribed image, which becomes the target. -/
def collect (fs : FS) : List PhotoTranscription →
    Except String (List Message × Option PhotoTranscription)
  | [] => .ok ([], none)
  | image :: rest => do
    let um ← user_message fs image
    if has_transcription fs image then do
      let (ms, last?) ← collect fs rest
      .ok (um :: assistant_message fs image :: ms, last?)
    else
      .ok ([um], some image)

/-- `_transcribe_images`: build the system/reference turns, accumulate the
work context, fail when every image is transcribed, otherwise return the
request actually passed to `_request` — system turns plus the slice
`user_messages[len(user_messages) - MAX_PHOTOS_PER_CONVERSATION:]` — together
with the target image. -/
def transcribe_images (fs : FS) (system_images user_images : List PhotoTranscription) :
    Except String (List Message × PhotoTranscription) := do
  let messages ← make_system_messages fs system_images
  let (user_messages, last_image) ← collect fs user_images
  match last_image with
  | none => .error "All images have been transcribed"
  | some last =>
    .ok (messages ++
          py_slice_from user_messages
            ((user_messages.length : Int) - (MAX_PHOTOS_PER_CONVERSATION : Int)),
         last)

/-- How a run of the outer loop ended: by running out of modelled fuel (the
real loop is `while True`), or because an uncaught exception propagated out of
`main`. -/
inductive ExitKind where
  | fuel_out
  | raised (msg : String)
deriving DecidableEq

/-- The `while True` loop of `main`: each iteration builds one request, sends
it (the completion API is the `oracle` function from requests to response
texts), and persists the response for the target image. The loop has no
`except` clause, so the first raised error ends the run. Returns the final
filesystem, the performed API calls (request and target of each), and how the
loop ended. -/
def main_loop (oracle : List Message → String)
    (system_images user_images : List PhotoTranscription) :
    Nat → FS → FS × List (List Message × PhotoTranscription) × ExitKind
  | 0, fs => (fs, [], .fuel_out)
  | fuel + 1, fs =>
    match transcribe_images fs system_images user_images with
    | .error e => (fs, [], .raised e)
    | .ok (req, image) =>
      let fs2 := save_transcription fs image (oracle req)
      let r := main_loop oracle system_images user_images fuel fs2
      (r.1, (req, image) :: r.2.1, r.2.2)

/-! ### Derived notions used to state the claims -/

/-- The `(user turn, assistant turn)` pairs accumulated for a list of
already-transcribed images. -/
def context_pairs (fs : FS) : List PhotoTranscription → List Message
  | [] => []
  | p :: rest => user_message_of fs p :: assistant_message fs p :: context_pairs fs rest

/-- Does a content part carry an image? -/
def part_is_image : ContentPart → Bool
  | .image_url _ => true
  | .text _ => false

/-- Is a turn image-bearing? -/
def msg_has_image (m : Message) : Bool := m.content.any part_is_image

/-- Number of image-bearing turns in a message list. -/
def count_image_turns (l : List Message) : Nat := (l.filter msg_has_image).length

/-- The request part of a `_transcribe_images` result (empty list on error). -/
def req_of (r : Except String (List Message × PhotoTranscription)) : List Message :=
  match r with
  | .ok (m, _) => m
  | .error _ => []

/-- The target part of a `_transcribe_images` result. -/
def tgt_of (r : Except String (List Message × PhotoTranscription)) :
    Option PhotoTranscription :=
  match r with
  | .ok (_, t) => some t
  | .error _ => none

/-! ### Basic lemmas -/

/-- When the image file is present, `user_message` succeeds with the total
form of the turn. -/
theorem user_message_of_present (fs : FS) (p : PhotoTranscription)
    (h : (fs.files p.image_path).isSome) :
    user_message fs p = .ok (user_message_of fs p) := by
  unfold user_message user_message_of
  cases hf : fs.files p.image_path with
  | none => rw [hf] at h; simp at h
  | some b => simp [hf]

/-- `context_pairs` distributes over append. -/
theorem context_pairs_append (fs : FS) (l₁ l₂ : List PhotoTranscription) :
    context_pairs fs (l₁ ++ l₂) = context_pairs fs l₁ ++ context_pairs fs l₂ := by
  induction l₁ with
  | nil => rfl
  | cons p rest ih => simp [context_pairs, ih]

/-- `context_pairs` yields two turns per image. -/
theorem context_pairs_length (fs : FS) (l : List PhotoTranscription) :
    (context_pairs fs l).length = 2 * l.length := by
  induction l with
  | nil => rfl
  | cons p rest ih => simp [context_pairs, ih]; omega

/-- On a fully transcribed work set (all image files readable), the loop
accumulates every pair and finds no target. -/
theorem collect_all_transcribed (fs : FS) (l : List PhotoTranscription)
    (htr : ∀ p ∈ l, has_transcription fs p = true)
    (him : ∀ p ∈ l, (fs.files p.image_path).isSome) :
    collect fs l = .ok (context_pairs fs l, none) := by
  induction l with
  | nil => rfl
  | cons p rest ih =>
    have h1 : has_transcription fs p = true := htr p (by simp)
    have h2 := user_message_of_present fs p (him p (by simp))
    have ih' := ih (fun q hq => htr q (by simp [hq])) (fun q hq => him q (by simp [hq]))
    simp only [collect, h2, h1, ih', context_pairs, if_pos]
    rfl

/-- Splitting the work set at the first untranscribed image: the loop returns
the accumulated pairs of the transcribed leading part, the target's user
turn, and the target. -/
theorem collect_split (fs : FS) (done : List PhotoTranscription)
    (t : PhotoTranscription) (rest : List PhotoTranscription)
    (htr : ∀ p ∈ done, has_transcription fs p = true)
    (him : ∀ p ∈ done, (fs.files p.image_path).isSome)
    (ht : has_transcription fs t = false)
    (hti : (fs.files t.image_path).isSome) :
    collect fs (done ++ t :: rest) =
      .ok (context_pairs fs done ++ [user_message_of fs t], some t) := by
  induction done with
  | nil =>
    have h2 := user_message_of_present fs t hti
    simp only [collect, h2, ht, context_pairs, Bool.false_eq_true, if_false]
    rfl
  | cons p drest ih =>
    have h1 : has_transcription fs p = true := htr p (by simp)
    have h2 := user_message_of_present fs p (him p (by simp))
    have ih' := ih (fun q hq => htr q (by simp [hq])) (fun q hq => him q (by simp [hq]))
    show collect fs (p :: (drest ++ t :: rest)) = _
    simp only [collect, h2, h1, ih', context_pairs]
    rfl

/-- The slice start `len - 4` on a list of length `k + 4` is non-negative, so
the slice is a plain drop of `k` elements. -/
theorem py_slice_from_of_length (l : List α) (k : Nat) (h : l.length = k + 4) :
    py_slice_from l ((l.length : Int) - 4) = l.drop k := by
  unfold py_slice_from
  rw [h]
  have h1 : ¬(((k + 4 : Nat) : Int) - 4 < 0) := by push_cast; omega
  simp only [h1, if_false]
  by_cases hk : k = 0
  · subst hk; norm_num
  · have h2 : ¬(((k + 4 : Nat) : Int) - 4 ≤ 0) := by push_cast; omega
    simp only [h2, if_false]
    congr 1
    push_cast
    omega

/-- Slicing a one-element list from `1 - 4 = -3`: the negative start is
clamped, the whole list is kept. -/
theorem py_slice_from_one (x : α) : py_slice_from [x] ((1 : Int) - 4) = [x] := by
  norm_num [py_slice_from]

/-- Slicing a three-element list from `3 - 4 = -1`: Python counts `-1` from
the end, so only the LAST element survives (nothing is clamped here). -/
theorem py_slice_from_three (x y z : α) :
    py_slice_from [x, y, z] ((3 : Int) - 4) = [z] := by
  norm_num [py_slice_from]
  rw [show Int.toNat 2 = 2 from rfl]
  rfl

/-- General shape of a successful `_transcribe_images` run: with the work set
split at its first untranscribed image, the result is the system turns, some
(possibly truncated) work context, and finally the target's user turn; the
target returned is that first untranscribed image. -/
theorem transcribe_images_split (fs : FS) (sys : List PhotoTranscription)
    (S : List Message) (done : List PhotoTranscription) (t : PhotoTranscription)
    (rest : List PhotoTranscription)
    (hS : make_system_messages fs sys = .ok S)
    (htr : ∀ p ∈ done, has_transcription fs p = true)
    (him : ∀ p ∈ done, (fs.files p.image_path).isSome)
    (ht : has_transcription fs t = false)
    (hti : (fs.files t.image_path).isSome) :
    ∃ ctx, transcribe_images fs sys (done ++ t :: rest) =
      .ok (S ++ ctx ++ [user_message_of fs t], t) := by
  have hc := collect_split fs done t rest htr him ht hti
  set L := context_pairs fs done ++ [user_message_of fs t] with hL
  have hlen : L.length = 2 * done.length + 1 := by
    simp [hL, context_pairs_length]
  have hslice : ∃ s, s ≤ (context_pairs fs done).length ∧
      py_slice_from L ((L.length : Int) - 4) = L.drop s := by
    unfold py_slice_from
    by_cases h1 : ((L.length : Int) - 4 < 0)
    · by_cases h2 : ((L.length : Int) - 4 + L.length ≤ 0)
      · exact ⟨0, by omega, by simp only [h1, if_pos, h2, if_true, List.drop_zero]⟩
      · refine ⟨((L.length : Int) - 4 + L.length).toNat, ?_, ?_⟩
        · have : (context_pairs fs done).length = L.length - 1 := by
            simp [hL]
          omega
        · simp only [h1, if_pos, h2, if_false]
    · by_cases h2 : ((L.length : Int) - 4 ≤ 0)
      · exact ⟨0, by omega, by simp only [h1, if_false, h2, if_true, List.drop_zero]⟩
      · refine ⟨((L.length : Int) - 4).toNat, ?_, ?_⟩
        · have : (context_pairs fs done).length = L.length - 1 := by
            simp [hL]
          omega
        · simp only [h1, if_false, h2, if_false]
  obtain ⟨s, hs, hdrop⟩ := hslice
  refine ⟨(context_pairs fs done).drop s, ?_⟩
  unfold transcribe_images
  rw [hS]
  show (do
    let r ← collect fs (done ++ t :: rest)
    match r.2 with
    | none => Except.error "All images have been transcribed"
    | some last =>
      Except.ok (S ++ py_slice_from r.1 ((r.1.length : Int) - (MAX_PHOTOS_PER_CONVERSATION : Int)), last)) = _
  rw [hc]
  show Except.ok (S ++ py_slice_from L ((L.length : Int) - (MAX_PHOTOS_PER_CONVERSATION : Int)), t) = _
  rw [show ((MAX_PHOTOS_PER_CONVERSATION : Nat) : Int) = 4 from rfl, hdrop, hL,
    List.drop_append_of_le_length hs, List.append_assoc]

/-- When every work image already has a transcription (and every image file is
readable), `_transcribe_images` raises the exhaustion `ValueError`. -/
theorem transcribe_images_exhausted (fs : FS) (sys : List PhotoTranscription)
    (S : List Message) (work : List PhotoTranscription)
    (hS : make_system_messages fs sys = .ok S)
    (htr : ∀ p ∈ work, has_transcription fs p = true)
    (him : ∀ p ∈ work, (fs.files p.image_path).isSome) :
    transcribe_images fs sys work = .error "All images have been transcribed" := by
  have hc := collect_all_transcribed fs work htr him
  unfold transcribe_images
  rw [hS]
  show (do
    let r ← collect fs work
    match r.2 with
    | none => Except.error "All images have been transcribed"
    | some last =>
      Except.ok (S ++ py_slice_from r.1 ((r.1.length : Int) - (MAX_PHOTOS_PER_CONVERSATION : Int)), last)) = _
  rw [hc]
  rfl

/-- Exact request shape when at least two transcribed images precede the
target: the work context sent is the LAST FOUR RAW MESSAGES — the previous
image's assistant turn (its user turn trimmed away), the last transcribed
image's user and assistant turns, and the target's user turn. -/
theorem transcribe_images_two_prior (fs : FS) (sys : List PhotoTranscription)
    (S : List Message) (pre : List PhotoTranscription)
    (qa qb t : PhotoTranscription) (rest : List PhotoTranscription)
    (hS : make_system_messages fs sys = .ok S)
    (htr : ∀ p ∈ pre ++ [qa, qb], has_transcription fs p = true)
    (him : ∀ p ∈ pre ++ [qa, qb], (fs.files p.image_path).isSome)
    (ht : has_transcription fs t = false)
    (hti : (fs.files t.image_path).isSome) :
    transcribe_images fs sys (pre ++ [qa, qb] ++ t :: rest) =
      .ok (S ++ [assistant_message fs qa, user_message_of fs qb,
                 assistant_message fs qb, user_message_of fs t], t) := by
  have hc := collect_split fs (pre ++ [qa, qb]) t rest htr him ht hti
  set L := context_pairs fs (pre ++ [qa, qb]) ++ [user_message_of fs t] with hL
  have hlen : L.length = (2 * pre.length + 1) + 4 := by
    simp [hL, context_pairs_length]
    omega
  have hslice := py_slice_from_of_length L (2 * pre.length + 1) hlen
  have hdrop : L.drop (2 * pre.length + 1) =
      [assistant_message fs qa, user_message_of fs qb,
       assistant_message fs qb, user_message_of fs t] := by
    rw [hL, context_pairs_append]
    have h2 : (context_pairs fs pre).length = 2 * pre.length :=
      context_pairs_length fs pre
    rw [List.append_assoc, ← h2]
    have := @List.drop_append _ (context_pairs fs pre)
      (context_pairs fs [qa, qb] ++ [user_message_of fs t]) 1
    rw [this]
    rfl
  unfold transcribe_images
  rw [hS]
  show (do
    let r ← collect fs (pre ++ [qa, qb] ++ t :: rest)
    match r.2 with
    | none => Except.error "All images have been transcribed"
    | some last =>
      Except.ok (S ++ py_slice_from r.1 ((r.1.length : Int) - (MAX_PHOTOS_PER_CONVERSATION : Int)), last)) = _
  rw [hc]
  show Except.ok (S ++ py_slice_from L ((L.length : Int) - (MAX_PHOTOS_PER_CONVERSATION : Int)), t) = _
  rw [show ((MAX_PHOTOS_PER_CONVERSATION : Nat) : Int) = 4 from rfl, hslice, hdrop]

/-- Exact request shape when the work set starts with the target (no
transcribed image precedes it): the whole (one-turn) context is kept. -/
theorem transcribe_images_no_prior (fs : FS) (sys : List PhotoTranscription)
    (S : List Message) (t : PhotoTranscription) (rest : List PhotoTranscription)
    (hS : make_system_messages fs sys = .ok S)
    (ht : has_transcription fs t = false)
    (hti : (fs.files t.image_path).isSome) :
    transcribe_images fs sys (t :: rest) =
      .ok (S ++ [user_message_of fs t], t) := by
  have hc := collect_split fs [] t rest (by simp) (by simp) ht hti
  simp only [List.nil_append, context_pairs] at hc
  unfold transcribe_images
  rw [hS]
  show (do
    let r ← collect fs (t :: rest)
    match r.2 with
    | none => Except.error "All images have been transcribed"
    | some last =>
      Except.ok (S ++ py_slice_from r.1 ((r.1.length : Int) - (MAX_PHOTOS_PER_CONVERSATION : Int)), last)) = _
  rw [hc]
  show Except.ok (S ++ py_slice_from [user_message_of fs t]
    (((1 : Nat) : Int) - (MAX_PHOTOS_PER_CONVERSATION : Int)), t) = _
  rw [show (((1 : Nat) : Int) - (MAX_PHOTOS_PER_CONVERSATION : Int)) = ((1 : Int) - 4) from rfl,
    py_slice_from_one]

/-- Exact request shape when EXACTLY ONE transcribed image precedes the
target: the accumulated context has three messages, the Python slice start is
`-1`, and only the target's user turn survives — the transcribed pair is
dropped entirely (no clamping happens at length three). -/
theorem transcribe_images_one_prior (fs : FS) (sys : List PhotoTranscription)
    (S : List Message) (q t : PhotoTranscription) (rest : List PhotoTranscription)
    (hS : make_system_messages fs sys = .ok S)
    (hq : has_transcription fs q = true)
    (hqi : (fs.files q.image_path).isSome)
    (ht : has_transcription fs t = false)
    (hti : (fs.files t.image_path).isSome) :
    transcribe_images fs sys (q :: t :: rest) =
      .ok (S ++ [user_message_of fs t], t) := by
  have hc := collect_split fs [q] t rest (by simpa using hq) (by simpa using hqi) ht hti
  simp only [context_pairs, List.nil_append] at hc
  unfold transcribe_images
  rw [hS]
  show (do
    let r ← collect fs (q :: t :: rest)
    match r.2 with
    | none => Except.error "All images have been transcribed"
    | some last =>
      Except.ok (S ++ py_slice_from r.1 ((r.1.length : Int) - (MAX_PHOTOS_PER_CONVERSATION : Int)), last)) = _
  rw [show ([q] ++ t :: rest) = q :: t :: rest from rfl] at hc
  rw [hc]
  show Except.ok (S ++ py_slice_from
    [user_message_of fs q, assistant_message fs q, user_message_of fs t]
    (((3 : Nat) : Int) - (MAX_PHOTOS_PER_CONVERSATION : Int)), t) = _
  rw [show (((3 : Nat) : Int) - (MAX_PHOTOS_PER_CONVERSATION : Int)) = ((3 : Int) - 4) from rfl,
    py_slice_from_three]

/-! ### Persistence lemmas -/

/-- After `save_transcription`, the written path holds exactly the text. -/
theorem save_files_self (fs : FS) (p : PhotoTranscription) (t : String) :
    (save_transcription fs p t).files (trans_path p) = some t := by
  simp [save_transcription]

/-- `save_transcription` touches no other path. -/
theorem save_files_other (fs : FS) (p : PhotoTranscription) (t : String)
    (q : String) (h : q ≠ trans_path p) :
    (save_transcription fs p t).files q = fs.files q := by
  simp [save_transcription, h]

/-- Saving marks the image transcribed. -/
theorem has_transcription_save_self (fs : FS) (p : PhotoTranscription) (t : String) :
    has_transcription (save_transcription fs p t) p = true := by
  simp [has_transcription, save_files_self]

/-- A transcribed image stays transcribed across any save. -/
theorem has_transcription_save_mono (fs : FS) (p p' : PhotoTranscription) (t : String)
    (h : has_transcription fs p = true) :
    has_transcription (save_transcription fs p' t) p = true := by
  by_cases hp : trans_path p = trans_path p'
  · simp [has_transcription, save_transcription, hp]
  · simpa [has_transcription, save_transcription, hp] using h

/-- Saving for one image does not change the completion state of an image
with a different transcription path. -/
theorem has_transcription_save_other (fs : FS) (p q : PhotoTranscription) (t : String)
    (h : trans_path p ≠ trans_path q) :
    has_transcription (save_transcription fs q t) p = has_transcription fs p := by
  simp [has_transcription, save_transcription, h]

/-- A `system_message` only depends on the filesystem through the reference
image's annotation path and image path. -/
theorem system_message_congr (fs fs' : FS) (r : PhotoTranscription)
    (ha : fs'.files (annot_path r) = fs.files (annot_path r))
    (hi : fs'.files r.image_path = fs.files r.image_path) :
    system_message fs' r = system_message fs r := by
  unfold system_message annot
  rw [ha, hi]

/-- The reference turns are unchanged by a write whose path is none of the
reference images' annotation or image paths. -/
theorem system_messages_of_save (fs : FS) (w : PhotoTranscription) (txt : String)
    (sys : List PhotoTranscription)
    (h : ∀ r ∈ sys, trans_path w ≠ r.image_path ∧ trans_path w ≠ annot_path r) :
    system_messages_of (save_transcription fs w txt) sys = system_messages_of fs sys := by
  induction sys with
  | nil => rfl
  | cons r rs ih =>
    have h1 := h r (by simp)
    have hr : system_message (save_transcription fs w txt) r = system_message fs r :=
      system_message_congr fs _ r
        (save_files_other fs w txt _ (fun he => h1.2 he.symm))
        (save_files_other fs w txt _ (fun he => h1.1 he.symm))
    have ih' := ih (fun q hq => h q (by simp [hq]))
    simp [system_messages_of, hr, ih']

/-- Same, lifted to `_make_system_messages`. -/
theorem make_system_messages_save (fs : FS) (w : PhotoTranscription) (txt : String)
    (sys : List PhotoTranscription)
    (h : ∀ r ∈ sys, trans_path w ≠ r.image_path ∧ trans_path w ≠ annot_path r) :
    make_system_messages (save_transcription fs w txt) sys = make_system_messages fs sys := by
  unfold make_system_messages
  rw [system_messages_of_save fs w txt sys h]

/-! ### The outer loop: exhaustion and resumability -/

/-- With every work image transcribed (and readable) the very first iteration
of `main` raises the exhaustion error: the loop ends having made no API call
and no write, and the error propagates out uncaught. -/
theorem main_loop_exhausted (fs : FS) (oracle : List Message → String)
    (sys work : List PhotoTranscription) (S : List Message) (fuel : Nat)
    (hS : make_system_messages fs sys = .ok S)
    (htr : ∀ p ∈ work, has_transcription fs p = true)
    (him : ∀ p ∈ work, (fs.files p.image_path).isSome) :
    main_loop oracle sys work (fuel + 1) fs =
      (fs, [], .raised "All images have been transcribed") := by
  have h := transcribe_images_exhausted fs sys S work hS htr him
  simp [main_loop, h]


/-- Resumability: if in the current filesystem the leading `done` images are
transcribed and the trailing `todo` images are not, the outer loop processes
EXACTLY the `todo` images, in order, and then raises the exhaustion error. The
path-disjointness hypotheses say the derived transcription paths are distinct
across the work set and collide neither with a work image file nor with a
reference image or annotation file. -/
theorem main_loop_resumes (oracle : List Message → String)
    (sys : List PhotoTranscription) (S : List Message)
    (todo done : List PhotoTranscription) (fs : FS)
    (hS : make_system_messages fs sys = .ok S)
    (htr : ∀ p ∈ done, has_transcription fs p = true)
    (htd : ∀ p ∈ todo, has_transcription fs p = false)
    (him : ∀ p ∈ done ++ todo, (fs.files p.image_path).isSome)
    (hdist : (done ++ todo).Pairwise (fun a b => trans_path a ≠ trans_path b))
    (himg : ∀ p ∈ done ++ todo, ∀ q ∈ done ++ todo, trans_path p ≠ q.image_path)
    (hsys : ∀ p ∈ done ++ todo, ∀ r ∈ sys,
      trans_path p ≠ r.image_path ∧ trans_path p ≠ annot_path r) :
    ((main_loop oracle sys (done ++ todo) (todo.length + 1) fs).2.1.map (·.2) = todo) ∧
    ((main_loop oracle sys (done ++ todo) (todo.length + 1) fs).2.2 =
      .raised "All images have been transcribed") := by
  induction todo generalizing fs done with
  | nil =>
    rw [show ([] : List PhotoTranscription).length + 1 = 0 + 1 from rfl]
    have h := main_loop_exhausted fs oracle sys (done ++ []) S 0 hS
      (by simpa using htr) him
    rw [h]
    simp
  | cons t rest ih =>
    have him_done : ∀ p ∈ done, (fs.files p.image_path).isSome :=
      fun p hp => him p (by simp [hp])
    have ht : has_transcription fs t = false := htd t (by simp)
    have hti : (fs.files t.image_path).isSome := him t (by simp)
    obtain ⟨ctx, hok⟩ := transcribe_images_split fs sys S done t rest hS htr him_done ht hti
    set req := S ++ ctx ++ [user_message_of fs t] with hreq
    have hstep : main_loop oracle sys (done ++ t :: rest) (rest.length + 1 + 1) fs =
        (let fs2 := save_transcription fs t (oracle req)
         let r := main_loop oracle sys (done ++ t :: rest) (rest.length + 1) fs2
         (r.1, (req, t) :: r.2.1, r.2.2)) := by
      simp [main_loop, hok]
    set fs2 := save_transcription fs t (oracle req) with hfs2
    have hmem_t : t ∈ done ++ t :: rest := by simp
    have hS2 : make_system_messages fs2 sys = .ok S := by
      rw [hfs2, make_system_messages_save fs t (oracle req) sys
        (fun r hr => hsys t hmem_t r hr)]
      exact hS
    have htr2 : ∀ p ∈ done ++ [t], has_transcription fs2 p = true := by
      intro p hp
      rcases List.mem_append.1 hp with h | h
      · exact has_transcription_save_mono fs p t (oracle req) (htr p h)
      · simp only [List.mem_singleton] at h
        subst h
        exact has_transcription_save_self fs p (oracle req)
    have hR : ∀ b ∈ rest, trans_path t ≠ trans_path b := by
      have h1 := (List.pairwise_append.1 hdist).2.1
      exact (List.pairwise_cons.1 h1).1
    have htd2 : ∀ p ∈ rest, has_transcription fs2 p = false := by
      intro p hp
      have hne : trans_path p ≠ trans_path t := fun he => hR p hp he.symm
      rw [hfs2, has_transcription_save_other fs p t (oracle req) hne]
      exact htd p (by simp [hp])
    have him2 : ∀ p ∈ (done ++ [t]) ++ rest, (fs2.files p.image_path).isSome := by
      intro p hp
      have hp' : p ∈ done ++ t :: rest := by simpa using hp
      rw [hfs2, save_files_other fs t (oracle req) _
        (fun he => himg t hmem_t p hp' he.symm)]
      exact him p hp'
    have hdist2 : ((done ++ [t]) ++ rest).Pairwise
        (fun a b => trans_path a ≠ trans_path b) := by
      have : (done ++ [t]) ++ rest = done ++ t :: rest := by simp
      rw [this]
      exact hdist
    have himg2 : ∀ p ∈ (done ++ [t]) ++ rest, ∀ q ∈ (done ++ [t]) ++ rest,
        trans_path p ≠ q.image_path := by
      intro p hp q hq
      exact himg p (by simpa using hp) q (by simpa using hq)
    have hsys2 : ∀ p ∈ (done ++ [t]) ++ rest, ∀ r ∈ sys,
        trans_path p ≠ r.image_path ∧ trans_path p ≠ annot_path r := by
      intro p hp r hr
      exact hsys p (by simpa using hp) r hr
    have ih' := ih (done ++ [t]) fs2 hS2 htr2 htd2 him2 hdist2 himg2 hsys2
    have hassoc2 : (done ++ [t]) ++ rest = done ++ t :: rest := by simp
    rw [hassoc2] at ih'
    rw [show (t :: rest).length + 1 = rest.length + 1 + 1 from by simp]
    rw [hstep]
    simpa using ih'

/-! ### Error propagation for missing reference annotations -/

/-- Building a reference turn for an image with no annotation file raises. -/
theorem system_message_no_annot (fs : FS) (r : PhotoTranscription)
    (h : fs.files (annot_path r) = none) :
    system_message fs r = .error "Annotation must be provided for system message" := by
  unfold system_message annot
  rw [h]

/-- If any reference image's turn raises, the comprehension raises (with the
first error hit in order). -/
theorem system_messages_of_error (fs : FS) (l : List PhotoTranscription)
    (r : PhotoTranscription) (hr : r ∈ l)
    (he : ∃ e, system_message fs r = .error e) :
    ∃ e, system_messages_of fs l = .error e := by
  induction l with
  | nil => cases hr
  | cons p rest ih =>
    cases hp : system_message fs p with
    | error e => exact ⟨e, by simp only [system_messages_of, hp]; rfl⟩
    | ok m =>
      have hr' : r ∈ rest := by
        rcases List.mem_cons.1 hr with h | h
        · obtain ⟨e, he⟩ := he
          rw [h, hp] at he
          cases he
        · exact h
      obtain ⟨e, hrec⟩ := ih hr'
      refine ⟨e, ?_⟩
      simp only [system_messages_of, hp, hrec]
      rfl

/-- Same, lifted to `_make_system_messages`. -/
theorem make_system_messages_error (fs : FS) (l : List PhotoTranscription)
    (r : PhotoTranscription) (hr : r ∈ l)
    (he : ∃ e, system_message fs r = .error e) :
    ∃ e, make_system_messages fs l = .error e := by
  obtain ⟨e, h⟩ := system_messages_of_error fs l r hr he
  exact ⟨e, by simp only [make_system_messages, h]; rfl⟩

/-- If building the system context raises, `_transcribe_images` raises the
same error — before the work loop and before any request is formed. -/
theorem transcribe_images_sys_error (fs : FS)
    (sys work : List PhotoTranscription) (e : String)
    (h : make_system_messages fs sys = .error e) :
    transcribe_images fs sys work = .error e := by
  unfold transcribe_images
  rw [h]
  rfl

/-- An error from `_transcribe_images` ends the run at once: no API call, no
write, the exception propagates out of `main` uncaught. -/
theorem main_loop_error (oracle : List Message → String)
    (sys work : List PhotoTranscription) (fs : FS) (e : String) (fuel : Nat)
    (h : transcribe_images fs sys work = .error e) :
    main_loop oracle sys work (fuel + 1) fs = (fs, [], .raised e) := by
  simp [main_loop, h]

/-! ### Discovery lemmas: sorting and filtering -/

/-- `chars_le` is total. -/
theorem chars_le_total (a b : List Char) : chars_le a b = true ∨ chars_le b a = true := by
  induction a generalizing b with
  | nil => left; rfl
  | cons x xs ih =>
    cases b with
    | nil => right; rfl
    | cons y ys =>
      by_cases h1 : x.toNat < y.toNat
      · left; simp [chars_le, h1]
      · by_cases h2 : y.toNat < x.toNat
        · right; simp [chars_le, h2]
        · rcases ih ys with h | h
          · left; simp [chars_le, h1, h2, h]
          · right; simp [chars_le, h1, h2, h]

/-- `chars_le` is transitive. -/
theorem chars_le_trans (a b c : List Char) (hab : chars_le a b = true)
    (hbc : chars_le b c = true) : chars_le a c = true := by
  induction a generalizing b c with
  | nil => rfl
  | cons x xs ih =>
    cases b with
    | nil => simp [chars_le] at hab
    | cons y ys =>
      cases c with
      | nil => simp [chars_le] at hbc
      | cons z zs =>
        simp only [chars_le] at hab hbc ⊢
        by_cases h1 : x.toNat < y.toNat
        · by_cases h2 : y.toNat < z.toNat
          · simp [show x.toNat < z.toNat from by omega]
          · by_cases h3 : z.toNat < y.toNat
            · simp [h2, h3] at hbc
            · simp [show x.toNat < z.toNat from by omega]
        · by_cases h4 : y.toNat < x.toNat
          · simp [h1, h4] at hab
          · by_cases h2 : y.toNat < z.toNat
            · simp [show x.toNat < z.toNat from by omega]
            · by_cases h3 : z.toNat < y.toNat
              · simp [h2, h3] at hbc
              · have hxz1 : ¬(x.toNat < z.toNat) := by omega
                have hxz2 : ¬(z.toNat < x.toNat) := by omega
                simp only [h1, h4, h2, h3, hxz1, hxz2, if_false] at hab hbc ⊢
                exact ih ys zs hab hbc

/-- `str_le` is total. -/
theorem str_le_total (a b : String) : str_le a b = true ∨ str_le b a = true :=
  chars_le_total a.data b.data

/-- `str_le` is transitive. -/
theorem str_le_trans (a b c : String) (hab : str_le a b = true)
    (hbc : str_le b c = true) : str_le a c = true :=
  chars_le_trans a.data b.data c.data hab hbc

/-- Membership in an insertion. -/
theorem mem_insert_sorted (x y : String) (l : List String) :
    y ∈ insert_sorted x l ↔ y = x ∨ y ∈ l := by
  induction l with
  | nil => simp [insert_sorted]
  | cons z zs ih =>
    by_cases h : str_le x z
    · simp [insert_sorted, h]
    · simp [insert_sorted, h, ih]
      tauto

/-- Inserting into a sorted list keeps it sorted. -/
theorem insert_sorted_pairwise (x : String) (l : List String)
    (h : l.Pairwise (fun a b => str_le a b = true)) :
    (insert_sorted x l).Pairwise (fun a b => str_le a b = true) := by
  induction l with
  | nil => simp [insert_sorted]
  | cons y ys ih =>
    rw [List.pairwise_cons] at h
    by_cases hxy : str_le x y
    · unfold insert_sorted
      rw [if_pos hxy, List.pairwise_cons]
      constructor
      · intro b hb
        rcases List.mem_cons.1 hb with hb | hb
        · rw [hb]; exact hxy
        · exact str_le_trans x y b hxy (h.1 b hb)
      · rw [List.pairwise_cons]
        exact h
    · unfold insert_sorted
      rw [if_neg hxy, List.pairwise_cons]
      constructor
      · intro b hb
        rcases (mem_insert_sorted x b ys).1 hb with hb | hb
        · rw [hb]
          rcases str_le_total x y with hx | hx
          · exact absurd hx hxy
          · exact hx
        · exact h.1 b hb
      · exact ih h.2
  
/-- `py_sorted` output is sorted by the Python string order. -/
theorem py_sorted_pairwise (l : List String) :
    (py_sorted l).Pairwise (fun a b => str_le a b = true) := by
  induction l with
  | nil => simp [py_sorted]
  | cons x xs ih => exact insert_sorted_pairwise x (py_sorted xs) ih

/-- Insertion is a permutation of consing. -/
theorem insert_sorted_perm (x : String) (l : List String) :
    (insert_sorted x l).Perm (x :: l) := by
  induction l with
  | nil => simp [insert_sorted]
  | cons y ys ih =>
    by_cases h : str_le x y
    · simp [insert_sorted, h]
    · unfold insert_sorted
      rw [if_neg h]
      exact (ih.cons y).trans (List.Perm.swap x y ys)
  
/-- `py_sorted` permutes its input: every entry is listed exactly once. -/
theorem py_sorted_perm (l : List String) : (py_sorted l).Perm l := by
  induction l with
  | nil => simp [py_sorted]
  | cons x xs ih =>
    exact (insert_sorted_perm x (py_sorted xs)).trans (ih.cons x)

/-- Appending on the left preserves `endswith`. -/
theorem endswith_append_left (a p t : String) (h : endswith p t = true) :
    endswith (a ++ p) t = true := by
  simp only [endswith, decide_eq_true_iff] at h ⊢
  rw [String.data_append]
  exact h.trans (List.suffix_append a.data p.data)

/-- `os.path.join` preserves the file extension of the joined component. -/
theorem endswith_os_path_join (dir p t : String) (h : endswith p t = true) :
    endswith (os_path_join dir p) t = true := by
  unfold os_path_join
  by_cases h1 : startswith p "/"
  · simpa [h1]
  · by_cases h2 : dir = "" || endswith dir "/"
    · simpa [h1, h2] using endswith_append_left dir p t h
    · simp only [h1, h2, if_false]
      rw [show dir ++ "/" ++ p = (dir ++ "/") ++ p from by rw [String.append_assoc]]
      exact endswith_append_left (dir ++ "/") p t h

/-- The discovery loop never raises: filtering happens before construction,
so `from_jpg_path` only ever sees paths with a supported extension, and the
result is exactly one record per supported entry, in listing order. -/
theorem load_images_loop_ok (dir : String) (l : List String) :
    load_images_loop dir l = .ok
      ((l.filter (fun p => endswith p ".jpeg" || endswith p ".jpg")).map
        (fun p => ⟨os_path_join dir p⟩)) := by
  induction l with
  | nil => rfl
  | cons p rest ih =>
    by_cases h : (endswith p ".jpeg" || endswith p ".jpg") = true
    · have hskip : (!(endswith p ".jpeg") && !(endswith p ".jpg")) = false := by
        rcases Bool.or_eq_true_iff.1 h with h1 | h1 <;> simp [h1]
      have hok : from_jpg_path (os_path_join dir p) = .ok ⟨os_path_join dir p⟩ := by
        unfold from_jpg_path
        rcases Bool.or_eq_true_iff.1 h with h1 | h1
        · simp [endswith_os_path_join dir p _ h1]
        · simp [endswith_os_path_join dir p _ h1]
      simp only [load_images_loop, hskip, Bool.false_eq_true, if_false, hok, ih,
        List.filter_cons, h, if_true, List.map_cons]
      rfl
    · have hskip : (!(endswith p ".jpeg") && !(endswith p ".jpg")) = true := by
        have h1 : endswith p ".jpeg" = false := by
          cases hh : endswith p ".jpeg"
          · rfl
          · exact absurd (by simp [hh]) h
        have h2 : endswith p ".jpg" = false := by
          cases hh : endswith p ".jpg"
          · rfl
          · exact absurd (by simp [hh]) h
        simp [h1, h2]
      simp only [load_images_loop, hskip, if_true, ih, List.filter_cons, h]
      simp [h]

/-! ### Concrete fixtures (association-list filesystems) -/

/-- Filesystem built from an association list of (path, contents). -/
def fs_of (l : List (String × String)) : FS :=
  ⟨fun p => (l.find? (fun q => q.1 == p)).map (fun q => q.2)⟩

/-- Eleven work images, the first ten already transcribed. -/
def fsC : FS := fs_of
  [("a01.jpg", ""), ("a02.jpg", ""), ("a03.jpg", ""), ("a04.jpg", ""),
   ("a05.jpg", ""), ("a06.jpg", ""), ("a07.jpg", ""), ("a08.jpg", ""),
   ("a09.jpg", ""), ("a10.jpg", ""), ("a11.jpg", ""),
   ("a01.txt", "t01"), ("a02.txt", "t02"), ("a03.txt", "t03"), ("a04.txt", "t04"),
   ("a05.txt", "t05"), ("a06.txt", "t06"), ("a07.txt", "t07"), ("a08.txt", "t08"),
   ("a09.txt", "t09"), ("a10.txt", "t10")]

/-- The first eight work records of the eleven-image work set. -/
def preC : List PhotoTranscription :=
  [⟨"a01.jpg"⟩, ⟨"a02.jpg"⟩, ⟨"a03.jpg"⟩, ⟨"a04.jpg"⟩,
   ⟨"a05.jpg"⟩, ⟨"a06.jpg"⟩, ⟨"a07.jpg"⟩, ⟨"a08.jpg"⟩]

/-- The eleven-image work set, in discovery order. -/
def workC : List PhotoTranscription :=
  preC ++ [⟨"a09.jpg"⟩, ⟨"a10.jpg"⟩] ++ ⟨"a11.jpg"⟩ :: []

/-- Two work images, only the first transcribed. -/
def fsD : FS := fs_of [("b1.jpg", ""), ("b2.jpg", ""), ("b1.txt", "tb1")]

/-- Work set for `fsD`. -/
def workD : List PhotoTranscription := [⟨"b1.jpg"⟩, ⟨"b2.jpg"⟩]

/-- Two work images, both transcribed. -/
def fsB : FS := fs_of [("c1.jpg", ""), ("c2.jpg", ""), ("c1.txt", "x"), ("c2.txt", "y")]

/-- Work set for `fsB`. -/
def workB : List PhotoTranscription := [⟨"c1.jpg"⟩, ⟨"c2.jpg"⟩]

/-- A constant completion API model. -/
def oracle0 : List Message → String := fun _ => "respuesta"

/-- One reference image whose annotation file is missing. -/
def fsR : FS := fs_of [("r1.jpg", "")]

/-- Reference set for `fsR`. -/
def sysR : List PhotoTranscription := [⟨"r1.jpg"⟩]

/-- One transcribed work image followed by two pending ones. -/
def fsW : FS := fs_of
  [("d1.jpg", ""), ("t1.jpg", ""), ("t2.jpg", ""), ("d1.txt", "td")]

/-- A work image with an annotation file whose content is `hola`. -/
def fsE : FS := fs_of [("w/p1.jpg", ""), ("w/p1_annotation.txt", "hola")]

/-- A small filesystem for the persistence witness. -/
def fsP : FS := fs_of [("w/a.jpg", ""), ("w/b.jpg", ""), ("w/b.txt", "old")]

/-! ### Claim theorems -/

/-- Claim C3: for every reference image lacking an annotation file, building
the system context fails with the annotation-precondition error, the whole of
`_transcribe_images` fails, and the outer loop therefore performs zero API
calls and zero writes — the failure happens before any network call. -/
theorem claim_C3_ref_annot_precondition (fs : FS)
    (sys work : List PhotoTranscription) (r : PhotoTranscription)
    (hr : r ∈ sys) (ha : fs.files (annot_path r) = none) :
    system_message fs r = .error "Annotation must be provided for system message" ∧
    ∃ e, transcribe_images fs sys work = .error e ∧
      ∀ (oracle : List Message → String) (fuel : Nat),
        main_loop oracle sys work (fuel + 1) fs = (fs, [], .raised e) := by
  have h1 := system_message_no_annot fs r ha
  obtain ⟨e, he⟩ := make_system_messages_error fs sys r hr ⟨_, h1⟩
  have h3 := transcribe_images_sys_error fs sys work e he
  exact ⟨h1, e, h3, fun oracle fuel => main_loop_error oracle sys work fs e fuel h3⟩

/-- Witness for C3 at a concrete input: one reference image `r1.jpg` with no
`r1_annotation.txt` on disk. -/
theorem claim_C3_witness :
    system_message fsR ⟨"r1.jpg"⟩ =
      .error "Annotation must be provided for system message" ∧
    ∃ e, transcribe_images fsR sysR workD = .error e ∧
      ∀ (oracle : List Message → String) (fuel : Nat),
        main_loop oracle sysR workD (fuel + 1) fsR = (fsR, [], .raised e) :=
  claim_C3_ref_annot_precondition fsR sysR workD ⟨"r1.jpg"⟩ (by decide) (by decide)

/-- Claim C5: for every work set containing at least one untranscribed image
(written as `done ++ t :: rest` with the leading images transcribed and `t`
not), the assembled request ends with a user turn for `t`, the first image in
order without a transcription, and `t` is returned as the unit of work. -/
theorem claim_C5_final_turn (fs : FS) (sys : List PhotoTranscription)
    (S : List Message) (done : List PhotoTranscription) (t : PhotoTranscription)
    (rest : List PhotoTranscription)
    (hS : make_system_messages fs sys = .ok S)
    (htr : ∀ p ∈ done, has_transcription fs p = true)
    (him : ∀ p ∈ done, (fs.files p.image_path).isSome)
    (ht : has_transcription fs t = false)
    (hti : (fs.files t.image_path).isSome) :
    ∃ ctx, transcribe_images fs sys (done ++ t :: rest) =
      .ok (S ++ ctx ++ [user_message_of fs t], t) ∧
      (user_message_of fs t).role = "user" := by
  obtain ⟨ctx, h⟩ := transcribe_images_split fs sys S done t rest hS htr him ht hti
  exact ⟨ctx, h, rfl⟩

/-- Witness for C5: one transcribed image, then target `t1.jpg`. -/
theorem claim_C5_witness :
    ∃ ctx, transcribe_images fsW [] ([⟨"d1.jpg"⟩] ++ ⟨"t1.jpg"⟩ :: [⟨"t2.jpg"⟩]) =
      .ok ([system_prompt] ++ ctx ++ [user_message_of fsW ⟨"t1.jpg"⟩], ⟨"t1.jpg"⟩) ∧
      (user_message_of fsW ⟨"t1.jpg"⟩).role = "user" :=
  claim_C5_final_turn fsW [] [system_prompt] [⟨"d1.jpg"⟩] ⟨"t1.jpg"⟩ [⟨"t2.jpg"⟩]
    rfl (by decide) (by decide) (by decide) (by decide)

/-- Claim C6: discovery sorts the listing in (Python) lexicographic filename
order, keeps exactly the entries with a supported extension, and builds one
record per match, in order; on the zero-padded page files the order is
page_001, page_002, page_010. -/
theorem claim_C6_discovery_ordering :
    (∀ dir listing, load_images dir listing = .ok
      (((py_sorted listing).filter
          (fun p => endswith p ".jpeg" || endswith p ".jpg")).map
        (fun p => ⟨os_path_join dir p⟩))) ∧
    (∀ listing : List String, (py_sorted listing).Perm listing ∧
      (py_sorted listing).Pairwise (fun a b => str_le a b = true)) ∧
    load_images "w" ["page_010_img_001.jpg", "page_001_img_001.jpg", "page_002_img_001.jpg"] =
      .ok [⟨"w/page_001_img_001.jpg"⟩, ⟨"w/page_002_img_001.jpg"⟩, ⟨"w/page_010_img_001.jpg"⟩] :=
  ⟨fun dir listing => load_images_loop_ok dir (py_sorted listing),
   fun listing => ⟨py_sorted_perm listing, py_sorted_pairwise listing⟩,
   rfl⟩

/-- Claim C7 (code bug): the work-image user turn is supposed to carry the
annotation contents as guidance, but the source line appends a plain (non-f)
string literal, so the turn carries the literal text of the placeholder and
NOT the annotation contents: here the annotation holds `hola`, yet the built
turn's text is the fixed placeholder string, which does not contain `hola`. -/
theorem claim_C7_annot_guidance_bug :
    annot fsE ⟨"w/p1.jpg"⟩ = some "hola" ∧
    user_message fsE ⟨"w/p1.jpg"⟩ = .ok
      { role := "user"
        content := [.text (some "Transcribe the following image by using the following human transcription as base:\n\x7bself.annotation\x7d"),
                    .image_url "data:image/jpeg;base64,"] } ∧
    ¬ ("hola".data <:+:
      "Transcribe the following image by using the following human transcription as base:\n\x7bself.annotation\x7d".data) := by
  refine ⟨rfl, rfl, ?_⟩
  set_option maxRecDepth 4000 in decide

/-- Claim C8: constructing a record from a path with an unsupported extension
fails, yet discovery filters such entries out before construction, so
`_load_images` never raises for any directory listing. -/
theorem claim_C8_unsupported_ext_unreachable :
    (∀ p, endswith p ".jpeg" = false → endswith p ".jpg" = false →
      from_jpg_path p = .error "Photo must be in JPEG format") ∧
    (∀ dir listing, ∃ l, load_images dir listing = .ok l) := by
  constructor
  · intro p h1 h2
    unfold from_jpg_path
    simp [h1, h2]
  · intro dir listing
    exact ⟨_, load_images_loop_ok dir (py_sorted listing)⟩

/-- Witness for C8: `a.png` is rejected by the constructor, while discovery
of a listing containing it succeeds (skipping it). -/
theorem claim_C8_witness :
    from_jpg_path "a.png" = .error "Photo must be in JPEG format" ∧
    ∃ l, load_images "w" ["a.png", "b.jpg"] = .ok l :=
  ⟨claim_C8_unsupported_ext_unreachable.1 "a.png" (by decide) (by decide),
   claim_C8_unsupported_ext_unreachable.2 "w" ["a.png", "b.jpg"]⟩

/-- Claim C9: persisting writes the text verbatim (UTF-8 plain text, no
framing) to the derived `<image_base_name>.txt` path, fully overwriting that
file, and modifies no other path; concretely the derived path of
`work/page_001_img_001.jpg` is `work/page_001_img_001.txt` beside it. -/
theorem claim_C9_persist_semantics (fs : FS) (self : PhotoTranscription) (t : String) :
    (save_transcription fs self t).files (trans_path self) = some t ∧
    (∀ q, q ≠ trans_path self → (save_transcription fs self t).files q = fs.files q) ∧
    trans_path ⟨"work/page_001_img_001.jpg"⟩ = "work/page_001_img_001.txt" :=
  ⟨save_files_self fs self t, fun q hq => save_files_other fs self t q hq, rfl⟩

/-- Witness for C9: overwrite `w/a.txt` with `texto`; `w/b.txt` keeps its old
contents. -/
theorem claim_C9_witness :
    (save_transcription fsP ⟨"w/a.jpg"⟩ "texto").files "w/a.txt" = some "texto" ∧
    (save_transcription fsP ⟨"w/a.jpg"⟩ "texto").files "w/b.txt" = fsP.files "w/b.txt" := by
  have h := claim_C9_persist_semantics fsP ⟨"w/a.jpg"⟩ "texto"
  exact ⟨h.1, h.2.1 "w/b.txt" (by decide)⟩

/-- Counterexample to claim C1 as stated: ten work images are transcribed
(`a01`..`a10`) and the turn budget is 4, yet the request assembled for the
11th image `a11.jpg` contains exactly ONE prior image-bearing turn besides the
system/reference turns and the target's own user turn — not 4 (and not 10).
The slice keeps the last four RAW messages, of which only one prior message
(the `a10.jpg` user turn) carries an image. -/
theorem claim_C1_counterexample :
    tgt_of (transcribe_images fsC [] workC) = some ⟨"a11.jpg"⟩ ∧
    count_image_turns (((req_of (transcribe_images fsC [] workC)).drop 1).dropLast) = 1 :=
  ⟨rfl, rfl⟩

/-- Claim C1 as amended: whenever at least two transcribed images precede the
target (in particular ten), the request is the system/reference turns plus
the last four raw work messages — previous image's assistant turn, last
transcribed image's user and assistant turns, and the target's user turn —
and contains exactly ONE prior image-bearing turn, not 4 and not 10. -/
theorem claim_C1_context_window (fs : FS) (sys : List PhotoTranscription)
    (S : List Message) (pre : List PhotoTranscription)
    (qa qb t : PhotoTranscription) (rest : List PhotoTranscription)
    (hS : make_system_messages fs sys = .ok S)
    (htr : ∀ p ∈ pre ++ [qa, qb], has_transcription fs p = true)
    (him : ∀ p ∈ pre ++ [qa, qb], (fs.files p.image_path).isSome)
    (ht : has_transcription fs t = false)
    (hti : (fs.files t.image_path).isSome) :
    transcribe_images fs sys (pre ++ [qa, qb] ++ t :: rest) =
      .ok (S ++ [assistant_message fs qa, user_message_of fs qb,
                 assistant_message fs qb, user_message_of fs t], t) ∧
    count_image_turns [assistant_message fs qa, user_message_of fs qb,
                       assistant_message fs qb] = 1 :=
  ⟨transcribe_images_two_prior fs sys S pre qa qb t rest hS htr him ht hti, rfl⟩

/-- Witness for the amended C1 on the ten-transcribed work set. -/
theorem claim_C1_witness :
    transcribe_images fsC [] (preC ++ [⟨"a09.jpg"⟩, ⟨"a10.jpg"⟩] ++ ⟨"a11.jpg"⟩ :: []) =
      .ok ([system_prompt] ++
        [assistant_message fsC ⟨"a09.jpg"⟩, user_message_of fsC ⟨"a10.jpg"⟩,
         assistant_message fsC ⟨"a10.jpg"⟩, user_message_of fsC ⟨"a11.jpg"⟩],
        ⟨"a11.jpg"⟩) ∧
    count_image_turns [assistant_message fsC ⟨"a09.jpg"⟩, user_message_of fsC ⟨"a10.jpg"⟩,
                       assistant_message fsC ⟨"a10.jpg"⟩] = 1 :=
  claim_C1_context_window fsC [] [system_prompt] preC ⟨"a09.jpg"⟩ ⟨"a10.jpg"⟩ ⟨"a11.jpg"⟩ []
    rfl (by decide) (by decide) (by decide) (by decide)

/-- Counterexample to claim C2 as stated: on a fully transcribed work set the
driver does signal exhaustion with zero API calls and zero writes, but the
outer loop does NOT treat it as graceful completion — `main` has no handler,
so the run ends with the uncaught `ValueError` propagating out of the loop. -/
theorem claim_C2_counterexample :
    main_loop oracle0 [] workB 1 fsB =
      (fsB, [], .raised "All images have been transcribed") :=
  rfl

/-- Claim C2 as amended: on a fully transcribed work set the first iteration
raises the exhaustion `ValueError` before any API call or write — the loop
returns the filesystem untouched, an empty call list, and the uncaught
error (rather than completing gracefully). -/
theorem claim_C2_exhaustion (fs : FS) (sys work : List PhotoTranscription)
    (S : List Message) (oracle : List Message → String) (fuel : Nat)
    (hS : make_system_messages fs sys = .ok S)
    (htr : ∀ p ∈ work, has_transcription fs p = true)
    (him : ∀ p ∈ work, (fs.files p.image_path).isSome) :
    main_loop oracle sys work (fuel + 1) fs =
      (fs, [], .raised "All images have been transcribed") :=
  main_loop_exhausted fs oracle sys work S fuel hS htr him

/-- Witness for the amended C2 on the two-image fully transcribed set. -/
theorem claim_C2_witness :
    main_loop oracle0 [] workB 3 fsB =
      (fsB, [], .raised "All images have been transcribed") :=
  claim_C2_exhaustion fsB [] workB [system_prompt] oracle0 2
    rfl (by decide) (by decide)

/-- Claim C4: completion state is derived solely from the existence of the
transcription file; with the first images (`done`) transcribed and the rest
(`todo`) not, a fresh run selects the first pending image as its target, and
the outer loop processes exactly the pending images, in order, before
signalling exhaustion — with no checkpoint state beyond the files. -/
theorem claim_C4_resumability (oracle : List Message → String)
    (sys : List PhotoTranscription) (S : List Message)
    (todo done : List PhotoTranscription) (fs : FS)
    (hS : make_system_messages fs sys = .ok S)
    (htr : ∀ p ∈ done, has_transcription fs p = true)
    (htd : ∀ p ∈ todo, has_transcription fs p = false)
    (him : ∀ p ∈ done ++ todo, (fs.files p.image_path).isSome)
    (hdist : (done ++ todo).Pairwise (fun a b => trans_path a ≠ trans_path b))
    (himg : ∀ p ∈ done ++ todo, ∀ q ∈ done ++ todo, trans_path p ≠ q.image_path)
    (hsys : ∀ p ∈ done ++ todo, ∀ r ∈ sys,
      trans_path p ≠ r.image_path ∧ trans_path p ≠ annot_path r) :
    ((main_loop oracle sys (done ++ todo) (todo.length + 1) fs).2.1.map (·.2) = todo) ∧
    ((main_loop oracle sys (done ++ todo) (todo.length + 1) fs).2.2 =
      .raised "All images have been transcribed") ∧
    (∀ t rest, todo = t :: rest →
      tgt_of (transcribe_images fs sys (done ++ todo)) = some t) := by
  obtain ⟨h1, h2⟩ := main_loop_resumes oracle sys S todo done fs
    hS htr htd him hdist himg hsys
  refine ⟨h1, h2, ?_⟩
  intro t rest heq
  subst heq
  obtain ⟨ctx, hok⟩ := transcribe_images_split fs sys S done t rest hS htr
    (fun p hp => him p (by simp [hp])) (htd t (by simp)) (him t (by simp))
  rw [hok]
  rfl

/-- Work set of `fsW` that is already transcribed. -/
def doneW : List PhotoTranscription := [⟨"d1.jpg"⟩]

/-- Work set of `fsW` still pending. -/
def todoW : List PhotoTranscription := [⟨"t1.jpg"⟩, ⟨"t2.jpg"⟩]

/-- Witness for C4: after `d1.jpg` is done, a run processes exactly `t1.jpg`
then `t2.jpg`, in order, and then signals exhaustion; the fresh run's first
target is `t1.jpg`. -/
theorem claim_C4_witness :
    ((main_loop oracle0 [] (doneW ++ todoW) (todoW.length + 1) fsW).2.1.map (·.2) = todoW) ∧
    ((main_loop oracle0 [] (doneW ++ todoW) (todoW.length + 1) fsW).2.2 =
      .raised "All images have been transcribed") ∧
    (∀ t rest, todoW = t :: rest →
      tgt_of (transcribe_images fsW [] (doneW ++ todoW)) = some t) :=
  claim_C4_resumability oracle0 [] [system_prompt] todoW doneW fsW
    rfl (by decide) (by decide) (by decide) (by decide) (by decide) (by decide)

/-- Counterexample to claim C10 as stated: with exactly ONE image transcribed
before the target (two prior raw messages, i.e. fewer than three), the slice
start `3 - 4 = -1` is NOT clamped: Python counts it from the end, so the
request keeps only the target's user turn and the accumulated pair is
dropped — the entire accumulated context is NOT sent. -/
theorem claim_C10_counterexample :
    tgt_of (transcribe_images fsD [] workD) = some ⟨"b2.jpg"⟩ ∧
    req_of (transcribe_images fsD [] workD) =
      [system_prompt, user_message_of fsD ⟨"b2.jpg"⟩] :=
  ⟨rfl, rfl⟩

/-- Claim C10 as amended: truncation counts raw messages, not image pairs.
With at least two transcribed images before the target the request keeps the
last four raw messages, whose first is an assistant turn with its paired user
turn trimmed away; with no prior messages the negative start is clamped and
the sole target turn is sent; with exactly one transcribed image (two prior
messages) the start `-1` counts from the end and only the target's user turn
is sent — the prior pair is dropped. -/
theorem claim_C10_truncation_raw_messages (fs : FS) (sys : List PhotoTranscription)
    (S : List Message) (t : PhotoTranscription) (rest : List PhotoTranscription)
    (hS : make_system_messages fs sys = .ok S)
    (ht : has_transcription fs t = false)
    (hti : (fs.files t.image_path).isSome) :
    (∀ pre qa qb, (∀ p ∈ pre ++ [qa, qb], has_transcription fs p = true) →
      (∀ p ∈ pre ++ [qa, qb], (fs.files p.image_path).isSome) →
      transcribe_images fs sys (pre ++ [qa, qb] ++ t :: rest) =
        .ok (S ++ [assistant_message fs qa, user_message_of fs qb,
                   assistant_message fs qb, user_message_of fs t], t)) ∧
    (transcribe_images fs sys (t :: rest) = .ok (S ++ [user_message_of fs t], t)) ∧
    (∀ q, has_transcription fs q = true → (fs.files q.image_path).isSome →
      transcribe_images fs sys (q :: t :: rest) =
        .ok (S ++ [user_message_of fs t], t)) :=
  ⟨fun pre qa qb htr him =>
      transcribe_images_two_prior fs sys S pre qa qb t rest hS htr him ht hti,
   transcribe_images_no_prior fs sys S t rest hS ht hti,
   fun q h1 h2 => transcribe_images_one_prior fs sys S q t rest hS h1 h2 ht hti⟩

/-- Witness for the amended C10: on the one-prior-image work set the request
is the system prompt plus only the target's user turn. -/
theorem claim_C10_witness :
    transcribe_images fsD [] (⟨"b1.jpg"⟩ :: ⟨"b2.jpg"⟩ :: []) =
      .ok ([system_prompt] ++ [user_message_of fsD ⟨"b2.jpg"⟩], ⟨"b2.jpg"⟩) :=
  (claim_C10_truncation_raw_messages fsD [] [system_prompt] ⟨"b2.jpg"⟩ []
    rfl (by decide) (by decide)).2.2 ⟨"b1.jpg"⟩ (by decide) (by decide)
